import Mathlib

set_option maxRecDepth 10000

/-!
Shallow embedding of the springbok-mgl text pipeline (bill segmentation,
law-reference extraction, section counting and law markup) over `List Char`.
Rust `String` values are modelled as lists of Unicode scalar values.  The
regex patterns of the source are transcribed into an explicit abstract
syntax and executed by a backtracking matcher with the leftmost-first
semantics of the `regex` / `fancy_regex` crates.  Unicode-aware character
classes (`\s`, `\w`, case folding) are modelled on their ASCII parts, which
covers every character produced or consumed by the embedded functions here.
-/

/-- List of scalar values of a string literal. -/
def lc (s : String) : List Char := s.data

/-- Rust regex `\s` (ASCII part: space, tab, newline, vertical tab, form feed, carriage return). -/
def chWS (c : Char) : Bool := c = ' ' || (9 ≤ c.toNat && c.toNat ≤ 13)

/-- Rust regex `\d`. -/
def chDigit (c : Char) : Bool := c.isDigit

/-- Rust regex `\w` (ASCII part). -/
def chWord (c : Char) : Bool := c.isAlphanum || c = '_'

/-- Rust regex `.`: any character except newline. -/
def ncNL (c : Char) : Bool := !(c = '\n')

/-- Rust regex `[\s\S]`: any character. -/
def chAny (_ : Char) : Bool := true

/-- Rust regex `(?i)[^a-z]`: anything but a letter (case-insensitive class negation). -/
def chNotLetter (c : Char) : Bool := !(('a' ≤ c && c ≤ 'z') || ('A' ≤ c && c ≤ 'Z'))

/-- Rust regex `[^\.:-]`. -/
def chScan (c : Char) : Bool := !(c = '.' || c = ':' || c = '-')

/-- Rust regex `[¼-¾⅐-⅞]`: Unicode vulgar fractions. -/
def chVulgar (c : Char) : Bool :=
  (0xBC ≤ c.toNat && c.toNat ≤ 0xBE) || (0x2150 ≤ c.toNat && c.toNat ≤ 0x215E)

/-- Rust regex `[^\d\W]`: a word character that is not a digit. -/
def chLetterU (c : Char) : Bool := c.isAlpha || c = '_'

/-- Rust `str::trim_start` (ASCII whitespace model). -/
def trimStart (s : List Char) : List Char := s.dropWhile chWS

/-- Rust `str::trim_end`. -/
def trimEnd (s : List Char) : List Char := (s.reverse.dropWhile chWS).reverse

/-- Rust `str::trim`. -/
def trim (s : List Char) : List Char := trimEnd (trimStart s)

/-- Rust `str::to_lowercase` (ASCII model). -/
def lowerStr (s : List Char) : List Char := s.map Char.toLower

/-- Rust `str::trim_end_matches(",")`. -/
def trimEndCommas (s : List Char) : List Char := (s.reverse.dropWhile (fun c => c = ',')).reverse

/-!
Substring search, as used by Rust `str::matches(pat).count()` and
`str::replace` for plain (non-regex) string patterns: repeated leftmost
non-overlapping matches.  `splitFirst s pat = some (p, r)` means the
leftmost occurrence of the non-empty pattern `pat` in `s` has the text `p`
before it and the text `r` after it.
-/

def splitFirst : List Char → List Char → Option (List Char × List Char)
  | _, [] => none
  | [], _ :: _ => none
  | c :: rest, p :: ps =>
    if (p :: ps).isPrefixOf (c :: rest) then
      some ([], (c :: rest).drop (p :: ps).length)
    else
      match splitFirst rest (p :: ps) with
      | some (q, r) => some (c :: q, r)
      | none => none

theorem isPrefixOf_append_drop (pat : List Char) :
    ∀ s : List Char, pat.isPrefixOf s = true → s = pat ++ s.drop pat.length := by
  induction pat with
  | nil => intro s _; simp
  | cons p ps ih =>
    intro s h
    cases s with
    | nil => simp [List.isPrefixOf] at h
    | cons c rest =>
      simp only [List.isPrefixOf, Bool.and_eq_true, beq_iff_eq] at h
      obtain ⟨rfl, h2⟩ := h
      simpa using ih rest h2

theorem splitFirst_append {pat : List Char} :
    ∀ {s p r : List Char}, splitFirst s pat = some (p, r) → s = p ++ pat ++ r := by
  intro s
  induction s with
  | nil =>
    intro p r h
    cases pat <;> simp [splitFirst] at h
  | cons c rest ih =>
    intro p r h
    cases pat with
    | nil => simp [splitFirst] at h
    | cons q qs =>
      rw [splitFirst] at h
      split at h
      · rename_i hpre
        injection h with h'
        injection h' with h1 h2
        subst h1; subst h2
        simpa using isPrefixOf_append_drop (q :: qs) (c :: rest) hpre
      · revert h
        cases hrec : splitFirst rest (q :: qs) with
        | none => intro h; exact absurd h (by simp)
        | some pr =>
          obtain ⟨p', r'⟩ := pr
          intro h
          injection h with h'
          injection h' with h1 h2
          subst h1; subst h2
          simpa using ih hrec

theorem splitFirst_length {pat : List Char} :
    ∀ {s p r : List Char}, splitFirst s pat = some (p, r) → r.length < s.length := by
  intro s p r h
  have hs := splitFirst_append h
  cases pat with
  | nil => cases s <;> simp [splitFirst] at h
  | cons q qs =>
    subst hs
    simp only [List.length_append, List.length_cons]
    omega

/-- Number of leftmost non-overlapping occurrences of a non-empty pattern. -/
def countOccN (pat : List Char) : Nat → List Char → Nat
  | 0, _ => 0
  | fuel + 1, s =>
    match splitFirst s pat with
    | none => 0
    | some (_, r) => 1 + countOccN pat fuel r

/-- Number of leftmost non-overlapping occurrences of a non-empty pattern.
    Each match consumes at least one character, so fuel `s.length + 1` is
    always enough (`countOccAux_eq` below gives the fuel-free equation). -/
def countOccAux (s pat : List Char) : Nat := countOccN pat (s.length + 1) s

def replaceAllN (pat repl : List Char) : Nat → List Char → List Char
  | 0, s => s
  | fuel + 1, s =>
    match splitFirst s pat with
    | none => s
    | some (p, r) => p ++ repl ++ replaceAllN pat repl fuel r

/-- Replace each leftmost non-overlapping occurrence of a non-empty pattern. -/
def replaceAllAux (s pat repl : List Char) : List Char := replaceAllN pat repl (s.length + 1) s

theorem countOccN_congr {pat : List Char} :
    ∀ n s m, s.length < n → s.length < m → countOccN pat n s = countOccN pat m s := by
  intro n
  induction n with
  | zero => intro s m h _; omega
  | succ n ih =>
    intro s m hn hm
    cases m with
    | zero => omega
    | succ m =>
      show countOccN pat (n + 1) s = countOccN pat (m + 1) s
      cases hsp : splitFirst s pat with
      | none => simp only [countOccN, hsp]
      | some pr =>
        obtain ⟨p, r⟩ := pr
        have hr := splitFirst_length hsp
        simp only [countOccN, hsp]
        rw [ih r m (by omega) (by omega)]

theorem replaceAllN_congr {pat repl : List Char} :
    ∀ n s m, s.length < n → s.length < m → replaceAllN pat repl n s = replaceAllN pat repl m s := by
  intro n
  induction n with
  | zero => intro s m h _; omega
  | succ n ih =>
    intro s m hn hm
    cases m with
    | zero => omega
    | succ m =>
      show replaceAllN pat repl (n + 1) s = replaceAllN pat repl (m + 1) s
      cases hsp : splitFirst s pat with
      | none => simp only [replaceAllN, hsp]
      | some pr =>
        obtain ⟨p, r⟩ := pr
        have hr := splitFirst_length hsp
        simp only [replaceAllN, hsp]
        rw [ih r m (by omega) (by omega)]

/-- The scan equation for `countOccAux`. -/
theorem countOccAux_eq (s pat : List Char) :
    countOccAux s pat =
      match splitFirst s pat with
      | none => 0
      | some pr => 1 + countOccAux pr.2 pat := by
  cases hsp : splitFirst s pat with
  | none => rw [countOccAux, countOccN, hsp]
  | some pr =>
    obtain ⟨p, r⟩ := pr
    have hr := splitFirst_length hsp
    rw [countOccAux, countOccN, hsp]
    show 1 + countOccN pat s.length r = 1 + countOccAux r pat
    rw [countOccAux, countOccN_congr s.length r (r.length + 1) (by omega) (by omega)]

/-- The scan equation for `replaceAllAux`. -/
theorem replaceAllAux_eq (s pat repl : List Char) :
    replaceAllAux s pat repl =
      match splitFirst s pat with
      | none => s
      | some pr => pr.1 ++ repl ++ replaceAllAux pr.2 pat repl := by
  cases hsp : splitFirst s pat with
  | none => rw [replaceAllAux, replaceAllN, hsp]
  | some pr =>
    obtain ⟨p, r⟩ := pr
    have hr := splitFirst_length hsp
    rw [replaceAllAux, replaceAllN, hsp]
    show p ++ repl ++ replaceAllN pat repl s.length r = p ++ repl ++ replaceAllAux r pat repl
    rw [replaceAllAux, replaceAllN_congr s.length r (r.length + 1) (by omega) (by omega)]

/-- Rust `s.matches(pat).count()`: the empty pattern matches at every
    boundary, `s.len() + 1` times in terms of scalar values. -/
def countOcc (s pat : List Char) : Nat :=
  if pat = [] then s.length + 1 else countOccAux s pat

/-- Rust `s.replace(pat, repl)`. -/
def replaceAll (s pat repl : List Char) : List Char :=
  if pat = [] then repl ++ s.flatMap (fun c => c :: repl) else replaceAllAux s pat repl

/-!
A backtracking regex matcher with leftmost-first semantics, the match
semantics of the `regex` and `fancy_regex` crates used by the source.
Quantified subexpressions in the source's patterns only ever quantify a
single-character class, so the star constructors take a character class;
`starG` is greedy, `starL` is lazy (`*?`).  `bos` is `^` (start of the
haystack, no multi-line flag anywhere in the source), `eos` is `\z`,
`look` is a lookahead `(?=...)`, and `litCI` a case-insensitive literal
(an inline `(?i)` region).  Alternation prefers its left branch and `opt`
(`?`) prefers to match, as in a backtracking engine.
-/

inductive Rx where
  | lit : List Char → Rx
  | litCI : List Char → Rx
  | cls : (Char → Bool) → Rx
  | seq : Rx → Rx → Rx
  | alt : Rx → Rx → Rx
  | starG : (Char → Bool) → Rx
  | starL : (Char → Bool) → Rx
  | opt : Rx → Rx
  | grp : Nat → Rx → Rx
  | look : Rx → Rx
  | bos : Rx
  | eos : Rx

/-- Capture environment: group index to captured text. -/
def Caps := List (Nat × List Char)

def setCap (i : Nat) (v : List Char) (caps : Caps) : Caps :=
  (i, v) :: (List.filter (fun p => p.1 ≠ i) caps)

def capGet (caps : Caps) (i : Nat) : Option (List Char) :=
  (List.find? (fun p => p.1 = i) caps).map (fun p => p.2)

/-- ASCII case-insensitive list-prefix test (pattern first). -/
def lcIsPrefixCI : List Char → List Char → Bool
  | [], _ => true
  | _ :: _, [] => false
  | a :: as, b :: bs => (a.toLower = b.toLower) && lcIsPrefixCI as bs

/-- Greedy single-character-class star: consume as much as possible, give
    back one character at a time when the continuation fails. -/
def rxStarG (p : Char → Bool) : List Char → Caps → (List Char → Caps → Option (List Char × Caps)) → Option (List Char × Caps)
  | [], caps, k => k [] caps
  | c :: rest, caps, k =>
    if p c then
      match rxStarG p rest caps k with
      | some r => some r
      | none => k (c :: rest) caps
    else k (c :: rest) caps

/-- Lazy single-character-class star: consume as little as possible. -/
def rxStarL (p : Char → Bool) : List Char → Caps → (List Char → Caps → Option (List Char × Caps)) → Option (List Char × Caps)
  | s, caps, k =>
    match k s caps with
    | some r => some r
    | none =>
      match s with
      | [] => none
      | c :: rest => if p c then rxStarL p rest caps k else none

/-- Match a pattern at the current position (`s` is the remaining input,
    `n` the length of the full haystack, so that `bos` can recognise the
    start).  The continuation receives the rest of the input and the
    captures; backtracking explores alternatives in priority order. -/
def rxMatch (n : Nat) : Rx → List Char → Caps → (List Char → Caps → Option (List Char × Caps)) → Option (List Char × Caps)
  | .lit l, s, caps, k => if l.isPrefixOf s then k (s.drop l.length) caps else none
  | .litCI l, s, caps, k => if lcIsPrefixCI l s then k (s.drop l.length) caps else none
  | .cls _, [], _, _ => none
  | .cls p, c :: rest, caps, k => if p c then k rest caps else none
  | .seq a b, s, caps, k => rxMatch n a s caps (fun s2 c2 => rxMatch n b s2 c2 k)
  | .alt a b, s, caps, k =>
    match rxMatch n a s caps k with
    | some r => some r
    | none => rxMatch n b s caps k
  | .starG p, s, caps, k => rxStarG p s caps k
  | .starL p, s, caps, k => rxStarL p s caps k
  | .opt a, s, caps, k =>
    match rxMatch n a s caps k with
    | some r => some r
    | none => k s caps
  | .grp i a, s, caps, k =>
    rxMatch n a s caps (fun s2 c2 => k s2 (setCap i (s.take (s.length - s2.length)) c2))
  | .look a, s, caps, k =>
    match rxMatch n a s caps (fun s2 c2 => some (s2, c2)) with
    | some _ => k s caps
    | none => none
  | .bos, s, caps, k => if s.length = n then k s caps else none
  | .eos, s, caps, k => if s.isEmpty then k s caps else none

/-- Try a full match starting exactly at the current position; returns the
    matched text, the rest, and the captures. -/
def rxRun (n : Nat) (r : Rx) (s : List Char) : Option (List Char × List Char × Caps) :=
  match rxMatch n r s [] (fun s2 c2 => some (s2, c2)) with
  | some (rest, caps) => some (s.take (s.length - rest.length), rest, caps)
  | none => none

/-- Leftmost match: try successive start positions, earliest wins. -/
def rxFindAux (n : Nat) (r : Rx) : List Char → Option (List Char × List Char × Caps)
  | [] => rxRun n r []
  | c :: t =>
    match rxRun n r (c :: t) with
    | some res => some res
    | none => rxFindAux n r t

def rxFind (r : Rx) (s : List Char) : Option (List Char × List Char × Caps) :=
  rxFindAux s.length r s

/-- Regex `is_match`. -/
def rxContains (r : Rx) (s : List Char) : Bool := (rxFind r s).isSome

/-- Content of one capture group of the leftmost match. -/
def rxCap (r : Rx) (i : Nat) (s : List Char) : Option (List Char) :=
  match rxFind r s with
  | some (_, _, caps) => capGet caps i
  | none => none

/-- `find_iter`: successive leftmost non-overlapping matches (whole match
    texts).  All iterated patterns of the source only produce non-empty
    matches; for safety an empty match advances the scan by one character. -/
def rxFindIterN (n : Nat) (r : Rx) : Nat → List Char → List (List Char)
  | 0, _ => []
  | fuel + 1, s =>
    match rxFindAux n r s with
    | none => []
    | some (m, rest, _) =>
      if rest.length < s.length then m :: rxFindIterN n r fuel rest
      else if 0 < s.length then m :: rxFindIterN n r fuel (s.drop 1)
      else [m]

def rxFindIter (r : Rx) (s : List Char) : List (List Char) :=
  rxFindIterN s.length r (s.length + 1) s

/-- Right-nested sequence of patterns. -/
def rxSeq (l : List Rx) : Rx := l.foldr Rx.seq (Rx.lit [])

/-!
The regex catalog, transcribed from `init_markup_regex` (src/markup.rs),
`init_bill_section_regex` (src/bill_section.rs) and
`init_law_section_regex` (src/law_section.rs).  Patterns of the source
that are never executed by the embedded functions (`replace_lines`,
`strike_lines`, `strike_section`, `insert_words`, `insert_lines`) are not
transcribed.
-/

/-- markup `text_parse`: `((?i)section.*)[\n\s]*([\S\s]*)`. -/
def reTextParse : Rx :=
  rxSeq [.grp 1 (rxSeq [.litCI (lc "section"), .starG ncNL]), .starG chWS, .grp 2 (.starG chAny)]

/-- markup `striking`: `strik`. -/
def reStriking : Rx := .lit (lc "strik")

/-- markup `inserting`: `insert`. -/
def reInserting : Rx := .lit (lc "insert")

/-- markup `words`: `words?`. -/
def reWords : Rx := rxSeq [.lit (lc "word"), .opt (.lit (lc "s"))]

/-- markup `sections`: `sections?:`. -/
def reSectionsIdiom : Rx := rxSeq [.lit (lc "section"), .opt (.lit (lc "s")), .lit (lc ":")]

/-- markup `subsections`: `(subsections?|subclauses?):`. -/
def reSubsectionsIdiom : Rx :=
  rxSeq [.grp 1 (.alt (rxSeq [.lit (lc "subsection"), .opt (.lit (lc "s"))])
                      (rxSeq [.lit (lc "subclause"), .opt (.lit (lc "s"))])),
         .lit (lc ":")]

/-- markup `lines`: `lines?`. -/
def reLinesIdiom : Rx := rxSeq [.lit (lc "line"), .opt (.lit (lc "s"))]

/-- markup `repealed`: `repealed ?(.*)`. -/
def reRepealed : Rx := rxSeq [.lit (lc "repealed"), .opt (.lit (lc " ")), .grp 1 (.starG ncNL)]

/-- markup `replace_words`: `strik.*(“|")(.*)(”|").*insert.*?:-? (.*)\.`. -/
def reReplaceWords : Rx :=
  rxSeq [.lit (lc "strik"), .starG ncNL,
         .grp 1 (.alt (.lit (lc "“")) (.lit (lc "\""))),
         .grp 2 (.starG ncNL),
         .grp 3 (.alt (.lit (lc "”")) (.lit (lc "\""))),
         .starG ncNL, .lit (lc "insert"), .starL ncNL,
         .lit (lc ":"), .opt (.lit (lc "-")), .lit (lc " "),
         .grp 4 (.starG ncNL), .lit (lc ".")]

/-- markup `replace_section`: `strik?.*section.*insert.*?:-?(.*)`. -/
def reReplaceSection : Rx :=
  rxSeq [.lit (lc "stri"), .opt (.lit (lc "k")), .starG ncNL,
         .lit (lc "section"), .starG ncNL, .lit (lc "insert"), .starL ncNL,
         .lit (lc ":"), .opt (.lit (lc "-")), .grp 1 (.starG ncNL)]

/-- markup `replace_subsection`: `strik?.*(subsection|subclause) \((.)\).*insert.*?:-?([\s\S]*)`. -/
def reReplaceSubsection : Rx :=
  rxSeq [.lit (lc "stri"), .opt (.lit (lc "k")), .starG ncNL,
         .grp 1 (.alt (.lit (lc "subsection")) (.lit (lc "subclause"))),
         .lit (lc " ("), .grp 2 (.cls ncNL), .lit (lc ")"),
         .starG ncNL, .lit (lc "insert"), .starL ncNL,
         .lit (lc ":"), .opt (.lit (lc "-")), .grp 3 (.starG chAny)]

/-- markup `strike_words`: `strik.*(“|")(.*)(”|")?\.`. -/
def reStrikeWords : Rx :=
  rxSeq [.lit (lc "strik"), .starG ncNL,
         .grp 1 (.alt (.lit (lc "“")) (.lit (lc "\""))),
         .grp 2 (.starG ncNL),
         .opt (.grp 3 (.alt (.lit (lc "”")) (.lit (lc "\"")))),
         .lit (lc ".")]

/-- markup `insert_section`: `insert.*sections?:-?([\s\S]*)`. -/
def reInsertSection : Rx :=
  rxSeq [.lit (lc "insert"), .starG ncNL, .lit (lc "section"), .opt (.lit (lc "s")),
         .lit (lc ":"), .opt (.lit (lc "-")), .grp 1 (.starG chAny)]

/-- markup `match_sections`: `Section[\s\S]*?(?=Section|\z)`. -/
def reMatchSections : Rx :=
  rxSeq [.lit (lc "Section"), .starL chAny, .look (.alt (.lit (lc "Section")) .eos)]

/-- The pattern built at runtime in the subsection branch of `mark_text`:
    `(?i)(\n|^)(section \d+.\s*)?(\(c\))([\s\S]*?)\n(\[.*\]|\([^\d\W]\))`,
    with the captured subsection character `c` spliced in (modelled as a
    literal character). -/
def reGetSubsection (c : List Char) : Rx :=
  rxSeq [.grp 1 (.alt (.lit (lc "\n")) .bos),
         .opt (.grp 2 (rxSeq [.litCI (lc "section "), .cls chDigit, .starG chDigit,
                              .cls ncNL, .starG chWS])),
         .grp 3 (rxSeq [.lit (lc "("), .litCI c, .lit (lc ")")]),
         .grp 4 (.starL chAny), .lit (lc "\n"),
         .grp 5 (.alt (rxSeq [.lit (lc "["), .starG ncNL, .lit (lc "]")])
                      (rxSeq [.lit (lc "("), .cls chLetterU, .lit (lc ")")]))]

/-- bill_section `bill_section`: `^\s*SECTION\s*(\d*\w*)\s*\.`. -/
def reBillSection : Rx :=
  rxSeq [.bos, .starG chWS, .lit (lc "SECTION"), .starG chWS,
         .grp 1 (rxSeq [.starG chDigit, .starG chWord]), .starG chWS, .lit (lc ".")]

/-- bill_section `amended`: `amended`. -/
def reAmended : Rx := .lit (lc "amended")

/-- bill_section `striking`: `striking`. -/
def reStrikingB : Rx := .lit (lc "striking")

/-- bill_section `inserting`: `inserting`. -/
def reInsertingB : Rx := .lit (lc "inserting")

/-- bill_section `repealed`: `repealed`. -/
def reRepealedB : Rx := .lit (lc "repealed")

/-- law_section `law_chapter`:
    `^\s*(?i)section [\d+][^a-z](?-i)\.*[^\.:-]*?[cC]hapter\s*(\d*\w*)`. -/
def reLawChapter : Rx :=
  rxSeq [.bos, .starG chWS, .litCI (lc "section "),
         .cls (fun c => chDigit c || c = '+'), .cls chNotLetter,
         .starG (fun c => c = '.'), .starL chScan,
         .alt (.lit (lc "chapter")) (.lit (lc "Chapter")),
         .starG chWS, .grp 1 (rxSeq [.starG chDigit, .starG chWord])]

/-- law_section `law_section`:
    `^\s*(?i)section [\d+][^a-z](?-i)\.*[^\.:-]*?([sS]ection[s]*)\s*(\d*\w*)`. -/
def reLawSection : Rx :=
  rxSeq [.bos, .starG chWS, .litCI (lc "section "),
         .cls (fun c => chDigit c || c = '+'), .cls chNotLetter,
         .starG (fun c => c = '.'), .starL chScan,
         .grp 1 (rxSeq [.cls (fun c => c = 's' || c = 'S'), .lit (lc "ection"),
                        .starG (fun c => c = 's')]),
         .starG chWS, .grp 2 (rxSeq [.starG chDigit, .starG chWord])]

/-- law_section `section_list`: `(\d+\w*\s*[¼-¾⅐-⅞]*)[,\s]`. -/
def reSectionList : Rx :=
  rxSeq [.grp 1 (rxSeq [.cls chDigit, .starG chDigit, .starG chWord, .starG chWS,
                        .starG chVulgar]),
         .cls (fun c => c = ',' || chWS c)]

/-!
Data model and capture wrappers.  Each `...Caps` definition mirrors an
`if let Ok(Some(caps)) = regex.captures(text)` site of the source; the
groups read there always participate in a successful match of the
corresponding pattern.
-/

/-- law_section.rs `LawSections`. -/
structure LawSections where
  chapter_number : List Char
  section_numbers : List (List Char)
deriving DecidableEq, Repr

/-- bill_section.rs `BillSection`. -/
structure BillSection where
  section_number : List Char
  text : List Char
  law_sections : LawSections
deriving DecidableEq, Repr

/-- lib.rs / law_section.rs `LawSectionWithText`. -/
structure LawSectionWithText where
  law_chapter_key : List Char
  text : List Char
  bill_section_keys : List (List Char)
deriving DecidableEq, Repr

/-- bill_section.rs `SectionCounts` (i32 fields modelled as integers). -/
structure SectionCounts where
  total : Int
  amending : Int
  amending_by_striking : Int
  amending_by_inserting : Int
  amending_by_striking_and_inserting : Int
  repealing : Int
  other : Int
deriving DecidableEq, Repr

/-- Captures of markup `repealed`: group 1, the repeal-specification clause. -/
def repealedCaps (bt : List Char) : Option (List Char) := rxCap reRepealed 1 bt

/-- Captures of markup `replace_words`: groups 2 (struck words) and 4 (inserted words). -/
def replaceWordsCaps (bt : List Char) : Option (List Char × List Char) :=
  match rxFind reReplaceWords bt with
  | some (_, _, caps) =>
    match capGet caps 2, capGet caps 4 with
    | some sw, some iw => some (sw, iw)
    | _, _ => none
  | none => none

/-- Captures of markup `strike_words`: group 2, the struck words. -/
def strikeWordsCaps (bt : List Char) : Option (List Char) := rxCap reStrikeWords 2 bt

/-- Captures of markup `replace_section`: group 1, the inserted text. -/
def replaceSectionCaps (bt : List Char) : Option (List Char) := rxCap reReplaceSection 1 bt

/-- Captures of markup `replace_subsection`: groups 2 (subsection character) and 3 (insert). -/
def replaceSubsectionCaps (bt : List Char) : Option (List Char × List Char) :=
  match rxFind reReplaceSubsection bt with
  | some (_, _, caps) =>
    match capGet caps 2, capGet caps 3 with
    | some ch, some ins => some (ch, ins)
    | _, _ => none
  | none => none

/-- Captures of markup `insert_section`: group 1, the inserted sections text. -/
def insertSectionCaps (bt : List Char) : Option (List Char) := rxCap reInsertSection 1 bt

/-- Captures of markup `text_parse`: groups 1 (title line) and 2 (body). -/
def textParseCaps (t : List Char) : Option (List Char × List Char) :=
  match rxFind reTextParse t with
  | some (_, _, caps) =>
    match capGet caps 1, capGet caps 2 with
    | some c1, some c2 => some (c1, c2)
    | _, _ => none
  | none => none

/-- Captures of the dynamic subsection pattern: groups 3 (header) and 4 (content). -/
def getSubsectionCaps (c law : List Char) : Option (List Char × List Char) :=
  match rxFind (reGetSubsection c) law with
  | some (_, _, caps) =>
    match capGet caps 3, capGet caps 4 with
    | some hdr, some content => some (hdr, content)
    | _, _ => none
  | none => none

/-!
The embedded program functions.
-/

/-- The footnote degradation of `mark_text`:
    `format!("{}\n\n_{}_", law_section_text, bill_section_text.trim())`. -/
def footnote (law bt : List Char) : List Char := law ++ lc "\n\n_" ++ trim bt ++ lc "_"

/-- `striked_words.starts_with([',', '.', ':', ' '])`. -/
def swStartsPunct : List Char → Bool
  | [] => false
  | c :: _ => c = ',' || c = '.' || c = ':' || c = ' '

/-- markup.rs `mark_text`: apply one bill section's amendment to the current
    law body text.  The boolean idiom flags and the branch structure follow
    the source's nested conditionals; `<regex>.captures` failures leave the
    text unchanged exactly where the source's `if let` falls through. -/
def mark_text (law bt num : List Char) : List Char :=
  if rxContains reRepealed bt then
    -- Repealing
    match repealedCaps bt with
    | some spec =>
      lc "[.line-through .red]#" ++ law ++ lc "#^" ++ num ++ lc "^\n\nREPEALED " ++ spec
        ++ lc "\n            "
    | none => law
  else if rxContains reStriking bt && rxContains reInserting bt then
    -- Striking and inserting
    if rxContains reWords bt then
      match replaceWordsCaps bt with
      | some (sw, iw) =>
        if countOcc law sw = 1 then
          replaceAll law sw ((if swStartsPunct sw then lc " " else [])
            ++ lc "[.line-through .red]#" ++ sw ++ lc "# [.blue]#" ++ iw
            ++ lc "#^" ++ num ++ lc "^")
        else footnote law bt
      | none => law
    else if rxContains reLinesIdiom bt then footnote law bt
    else if rxContains reSubsectionsIdiom bt then
      match replaceSubsectionCaps bt with
      | some (ch, ins) =>
        match getSubsectionCaps (trim ch) law with
        | some (hdr, content) =>
          replaceAll law (trim hdr ++ lc " " ++ trim content)
            (replaceAll
              (lc "[.line-through .red]##" ++ (trim hdr ++ lc " " ++ trim content)
                ++ lc "##\n\n[.blue]##" ++ trim ins ++ lc "##^" ++ num ++ lc "^")
              (lc "\n") (lc " +\n"))
        | none => law
      | none => law
    else if rxContains reSectionsIdiom bt then
      match replaceSectionCaps bt with
      | some ins =>
        lc "[.line-through .red]#" ++ law ++ lc "#\n\n[.blue]#" ++ trim ins
          ++ lc "#^" ++ num ++ lc "^"
      | none => law
    else law
  else if rxContains reStriking bt then
    -- Striking
    if rxContains reWords bt then
      match strikeWordsCaps bt with
      | some sw =>
        replaceAll law sw (lc "[.line-through .red]#" ++ sw ++ lc "#^" ++ num ++ lc "^ ")
      | none => law
    else if rxContains reLinesIdiom bt then footnote law bt
    else law
  else if rxContains reInserting bt then
    -- Inserting
    if rxContains reWords bt then footnote law bt
    else if rxContains reLinesIdiom bt then footnote law bt
    else if rxContains reSectionsIdiom bt then
      match insertSectionCaps bt with
      | some st =>
        law ++ lc "\n\n[.blue]#"
          ++ List.intercalate (lc "#\n\n[.blue]#") ((rxFindIter reMatchSections (trim st)).map trim)
          ++ lc "#^" ++ num ++ lc "^"
      | none => law
    else law
  else law

/-- The fold of `mark_section_text` over the law section's bill section keys:
    keys with no matching bill section are skipped. -/
def markFold (bill_sections : List BillSection) (keys : List (List Char)) (acc : List Char) : List Char :=
  keys.foldl (fun acc key =>
    match bill_sections.find? (fun bs => bs.section_number == key) with
    | some bs => mark_text acc bs.text bs.section_number
    | none => acc) acc

/-- markup.rs `mark_section_text`. -/
def mark_section_text (law_section : LawSectionWithText) (bill_sections : List BillSection) :
    Option (List Char) :=
  match textParseCaps law_section.text with
  | some (c1, c2) =>
    some (lc "*" ++ trim c1 ++ lc "*\n\n"
      ++ markFold bill_sections law_section.bill_section_keys (trim c2))
  | none => none

/-- law_section.rs `collect_law_sections` (the unused `_bill_section_number`
    parameter of the source is omitted). -/
def collect_law_sections (section_str : List Char) : LawSections :=
  let law_chapter :=
    match rxCap reLawChapter 1 section_str with
    | some c => c
    | none => []
  -- Exit if no chapter found
  if law_chapter = [] then
    { chapter_number := law_chapter, section_numbers := [] }
  else
    let law_sections :=
      match rxFind reLawSection section_str with
      | some (_, _, caps) =>
        match capGet caps 1, capGet caps 2 with
        | some g1, some g2 =>
          if lowerStr (trim g1) = lc "section" then
            -- Found a single section
            [trimEnd g2]
          else if lowerStr (trim g1) = lc "sections" then
            -- Found multiple, comma delimited sections
            (rxFindIter reSectionList section_str).map (fun m => trimEnd (trimEndCommas m))
          else []
        | _, _ => []
      | none => []
    { chapter_number := law_chapter, section_numbers := law_sections }

/-- bill_section.rs `collect_bill_section`. -/
def collect_bill_section (section_text : List Char) : BillSection :=
  { section_number :=
      match rxCap reBillSection 1 section_text with
      | some n => n
      | none => []
    text := section_text
    law_sections := collect_law_sections section_text }

/-- The accumulator loop of bill_section.rs `collect_bill_sections`. -/
def collect_bill_sections_aux : List (List Char) → List Char → List BillSection → List BillSection
  | [], acc, bill => bill ++ [collect_bill_section acc]
  | node :: rest, acc, bill =>
    let bill2 := if rxContains reBillSection node && acc ≠ [] then
        bill ++ [collect_bill_section acc] else bill
    let acc2 := if rxContains reBillSection node then [] else acc
    let acc3 := if acc2 = [] then node else acc2 ++ lc "\n" ++ node
    collect_bill_sections_aux rest acc3 bill2

/-- bill_section.rs `collect_bill_sections`. -/
def collect_bill_sections (text_nodes : List (List Char)) : List BillSection :=
  collect_bill_sections_aux text_nodes [] []

/-- The newline-join a header-free run of fragments accumulates into. -/
def accJoinAux : List (List Char) → List Char → List Char
  | [], acc => acc
  | node :: rest, acc => accJoinAux rest (if acc = [] then node else acc ++ lc "\n" ++ node)

def accJoin (nodes : List (List Char)) : List Char := accJoinAux nodes []

/-- One iteration of the counting loop of `count_bill_section_types`. -/
def countStep (sc : SectionCounts) (bs : BillSection) : SectionCounts :=
  if rxContains reAmended bs.text then
    -- Section amends an existing law
    let sc := { sc with amending := sc.amending + 1 }
    if rxContains reStrikingB bs.text && rxContains reInsertingB bs.text then
      { sc with amending_by_striking_and_inserting := sc.amending_by_striking_and_inserting + 1 }
    else if rxContains reStrikingB bs.text then
      { sc with amending_by_striking := sc.amending_by_striking + 1 }
    else if rxContains reInsertingB bs.text then
      { sc with amending_by_inserting := sc.amending_by_inserting + 1 }
    else sc
  else if rxContains reRepealedB bs.text then
    -- Section repeals an existing law
    { sc with repealing := sc.repealing + 1 }
  else
    { sc with other := sc.other + 1 }

/-- bill_section.rs `count_bill_section_types`. -/
def count_bill_section_types (bill : List BillSection) : SectionCounts :=
  bill.foldl countStep
    { total := (bill.length : Int), amending := 0, amending_by_striking := 0,
      amending_by_inserting := 0, amending_by_striking_and_inserting := 0,
      repealing := 0, other := 0 }

/-- law_section.rs `get_section_key`. -/
def get_section_key (chapter sec : List Char) : List Char := chapter ++ lc "-" ++ sec

/-- Rust `String` (byte-wise and therefore scalar-value-wise) strict order. -/
def lcLt : List Char → List Char → Bool
  | [], [] => false
  | [], _ :: _ => true
  | _ :: _, [] => false
  | a :: as, b :: bs => a.toNat < b.toNat || (a = b && lcLt as bs)

/-- `Ord` on `(String, String)` pairs, lexicographic. -/
def pairLe (x y : (List Char × List Char)) : Bool :=
  lcLt x.1 y.1 || (x.1 = y.1 && (lcLt x.2 y.2 || x.2 = y.2))

def insSorted (x : List Char × List Char) :
    List (List Char × List Char) → List (List Char × List Char)
  | [] => [x]
  | y :: ys => if pairLe x y then x :: y :: ys else y :: insSorted x ys

/-- `Vec::sort` on `(String, String)` pairs (its result is determined by the
    total order, so a stable insertion sort models it exactly). -/
def sortPairs (l : List (List Char × List Char)) : List (List Char × List Char) :=
  l.foldr insSorted []

/-- `Vec::dedup`: remove consecutive duplicates. -/
def dedupConsec : List (List Char × List Char) → List (List Char × List Char)
  | [] => []
  | [x] => [x]
  | x :: y :: r => if x = y then dedupConsec (y :: r) else x :: dedupConsec (y :: r)

/-- The `required_law_sections` list built by lib.rs `get_required_law_sections`
    before downloading: all (chapter, section) pairs of the bill, sorted and
    deduplicated. -/
def required_law_sections (bill : List BillSection) : List (List Char × List Char) :=
  dedupConsec (sortPairs (bill.flatMap (fun bs =>
    bs.law_sections.section_numbers.map (fun sec => (bs.law_sections.chapter_number, sec)))))

/-- The pure prefix of lib.rs `get_required_law_sections` up to and including
    `required_law_sections.pop().unwrap()` (the downloads that follow are
    external I/O).  `Vec::pop` removes the last element; `none` models the
    panic of `unwrap` on an empty vector. -/
def get_required_law_sections_pop (bill : List BillSection) :
    Option ((List Char × List Char) × List (List Char × List Char)) :=
  match (required_law_sections bill).getLast? with
  | none => none
  | some p => some (p, (required_law_sections bill).dropLast)

theorem countOccAux_eq_zero {s pat : List Char} (h : countOccAux s pat = 0) :
    splitFirst s pat = none := by
  rw [countOccAux_eq] at h
  cases hsp : splitFirst s pat with
  | none => rfl
  | some pr =>
    rw [hsp] at h
    have h2 : 1 + countOccAux pr.2 pat = 0 := h
    omega

theorem replaceAllAux_of_none {s pat repl : List Char} (h : splitFirst s pat = none) :
    replaceAllAux s pat repl = s := by
  rw [replaceAllAux_eq, h]

theorem countOccAux_one {s pat : List Char} (h : countOccAux s pat = 1) :
    ∃ p r, splitFirst s pat = some (p, r) ∧ countOccAux r pat = 0 := by
  rw [countOccAux_eq] at h
  cases hsp : splitFirst s pat with
  | none =>
    rw [hsp] at h
    have h2 : (0 : Nat) = 1 := h
    omega
  | some pr =>
    obtain ⟨p1, r1⟩ := pr
    rw [hsp] at h
    have h2 : 1 + countOccAux r1 pat = 1 := h
    exact ⟨p1, r1, rfl, by omega⟩


theorem replaceAll_of_countOcc_one {s pat repl : List Char}
    (hne : pat ≠ []) (h : countOcc s pat = 1) :
    ∃ p r, splitFirst s pat = some (p, r) ∧ s = p ++ pat ++ r ∧
      replaceAll s pat repl = p ++ repl ++ r := by
  rw [countOcc, if_neg hne] at h
  obtain ⟨p, r, hsp, hzero⟩ := countOccAux_one h
  refine ⟨p, r, hsp, splitFirst_append hsp, ?_⟩
  rw [replaceAll, if_neg hne, replaceAllAux_eq, hsp]
  show p ++ repl ++ replaceAllAux r pat repl = p ++ repl ++ r
  rw [replaceAllAux_of_none (countOccAux_eq_zero hzero)]

theorem rxCap_some_contains {r : Rx} {i : Nat} {s v : List Char} (h : rxCap r i s = some v) :
    rxContains r s = true := by
  unfold rxCap at h
  unfold rxContains
  cases hf : rxFind r s with
  | none => rw [hf] at h; exact absurd h (by simp)
  | some t => simp [hf]

/-- C4: for every input text, if `collect_law_sections` returns an empty
    `chapter_number` then it returns an empty `section_numbers` list: section
    numbers are never populated without a chapter. -/
theorem collect_law_sections_empty_chapter (s : List Char)
    (h : (collect_law_sections s).chapter_number = []) :
    (collect_law_sections s).section_numbers = [] := by
  unfold collect_law_sections at h ⊢
  set law_chapter := (match rxCap reLawChapter 1 s with | some c => c | none => []) with hlc
  by_cases hc : law_chapter = []
  · simp [hc]
  · simp [hc] at h

/-- C4 witness: a text with no chapter reference yields empty chapter and
    empty section list. -/
theorem collect_law_sections_empty_chapter_witness :
    (collect_law_sections (lc "x")).chapter_number = [] ∧
      (collect_law_sections (lc "x")).section_numbers = [] :=
  ⟨by decide, collect_law_sections_empty_chapter (lc "x") (by decide)⟩

/-- C5: whenever the bill section's text matches the `repealed` idiom, with
    captured repeal-specification clause `spec`, `mark_text` wraps the whole
    current body in a strike-through annotation carrying the bill section
    number as a superscript and appends a `REPEALED <spec>` marker; no other
    amendment sub-case affects the result (repeal has priority over the
    strike/insert classification). -/
theorem mark_text_repealed (law bt num spec : List Char)
    (hcaps : repealedCaps bt = some spec) :
    mark_text law bt num =
      lc "[.line-through .red]#" ++ law ++ lc "#^" ++ num ++ lc "^\n\nREPEALED " ++ spec
        ++ lc "\n            " := by
  have hc : rxContains reRepealed bt = true := rxCap_some_contains hcaps
  unfold mark_text
  simp [hc, hcaps]

/-- C5 witness: a concrete repealing bill section strikes the entire body. -/
theorem mark_text_repealed_witness :
    mark_text (lc "All of it.") (lc "Section 5 of chapter 6A is hereby repealed.") (lc "5") =
      lc "[.line-through .red]#" ++ lc "All of it." ++ lc "#^" ++ lc "5"
        ++ lc "^\n\nREPEALED " ++ lc "." ++ lc "\n            " :=
  mark_text_repealed (lc "All of it.") (lc "Section 5 of chapter 6A is hereby repealed.")
    (lc "5") (lc ".") (by decide)

/-- C1 counterexample: a strike+insert-words bill section whose inserted
    replacement itself contains the strike-annotation text.  The struck
    phrase `z` occurs exactly once in the body, yet the strike-annotated
    phrase occurs twice in the output (once from the replacement, once
    inside the inserted words), and neither annotated span is itself
    directly followed by the `^1^` superscript in the way the strike span
    would have to be for both spans to carry the citation. -/
theorem mark_text_replace_words_counterexample :
    replaceWordsCaps (lc "strik word \"z\" insert: [.line-through .red]#z#.") =
        some (lc "z", lc "[.line-through .red]#z#") ∧
      rxContains reRepealed (lc "strik word \"z\" insert: [.line-through .red]#z#.") = false ∧
      rxContains reStriking (lc "strik word \"z\" insert: [.line-through .red]#z#.") = true ∧
      rxContains reInserting (lc "strik word \"z\" insert: [.line-through .red]#z#.") = true ∧
      rxContains reWords (lc "strik word \"z\" insert: [.line-through .red]#z#.") = true ∧
      countOcc (lc "azb") (lc "z") = 1 ∧
      ¬(countOcc (mark_text (lc "azb") (lc "strik word \"z\" insert: [.line-through .red]#z#.")
            (lc "1")) (lc "[.line-through .red]#z#") = 1 ∧
        1 ≤ countOcc (mark_text (lc "azb")
            (lc "strik word \"z\" insert: [.line-through .red]#z#.") (lc "1"))
          (lc "[.line-through .red]#z#^1^")) := by
  decide

/-- C1 (amended): for a non-repealing bill section matching the strike+insert
    words idiom with captured struck phrase `sw` (non-empty) and inserted
    phrase `iw`, when `sw` occurs exactly once in the body, `mark_text`
    returns the body with that unique occurrence replaced by the
    strike-annotated original phrase followed by the insert-annotated
    replacement phrase, the bill section number superscript being attached
    once, after the insert span.  Each annotated span therefore appears in
    the output, but not necessarily exactly once: the annotation text may
    independently occur (for example inside the inserted phrase). -/
theorem mark_text_replace_words_unique (body bt num sw iw : List Char)
    (hrep : rxContains reRepealed bt = false)
    (hstrik : rxContains reStriking bt = true)
    (hins : rxContains reInserting bt = true)
    (hword : rxContains reWords bt = true)
    (hcaps : replaceWordsCaps bt = some (sw, iw))
    (hsw : sw ≠ [])
    (hone : countOcc body sw = 1) :
    ∃ p s, splitFirst body sw = some (p, s) ∧ body = p ++ sw ++ s ∧
      mark_text body bt num =
        p ++ ((if swStartsPunct sw then lc " " else [])
          ++ lc "[.line-through .red]#" ++ sw ++ lc "# [.blue]#" ++ iw
          ++ lc "#^" ++ num ++ lc "^") ++ s := by
  obtain ⟨p, s, hsp, hdecomp, hrepl⟩ := @replaceAll_of_countOcc_one body sw
    ((if swStartsPunct sw then lc " " else [])
      ++ lc "[.line-through .red]#" ++ sw ++ lc "# [.blue]#" ++ iw
      ++ lc "#^" ++ num ++ lc "^") hsw hone
  refine ⟨p, s, hsp, hdecomp, ?_⟩
  unfold mark_text
  simp [hrep, hstrik, hins, hword, hcaps, hone, List.append_assoc]
  simp [List.append_assoc] at hrepl
  exact hrepl

/-- C1 witness: a concrete strike+insert-words section with a unique struck
    phrase. -/
theorem mark_text_replace_words_unique_witness :
    ∃ p s, splitFirst (lc "x ab y") (lc "ab") = some (p, s) ∧
      lc "x ab y" = p ++ lc "ab" ++ s ∧
      mark_text (lc "x ab y") (lc "strik word \"ab\" insert: cd.") (lc "1") =
        p ++ ((if swStartsPunct (lc "ab") then lc " " else [])
          ++ lc "[.line-through .red]#" ++ lc "ab" ++ lc "# [.blue]#" ++ lc "cd"
          ++ lc "#^" ++ lc "1" ++ lc "^") ++ s :=
  mark_text_replace_words_unique (lc "x ab y") (lc "strik word \"ab\" insert: cd.") (lc "1")
    (lc "ab") (lc "cd") (by decide) (by decide) (by decide) (by decide) (by decide)
    (by decide) (by decide)

/-- C2: for a non-repealing bill section matching the strike+insert words
    idiom, when the captured struck phrase does not occur exactly once in
    the body (zero or two-or-more occurrences), `mark_text` leaves the body
    unchanged and appends the trimmed raw bill-section text as an
    italicized footnote. -/
theorem mark_text_replace_words_ambiguous (body bt num sw iw : List Char)
    (hrep : rxContains reRepealed bt = false)
    (hstrik : rxContains reStriking bt = true)
    (hins : rxContains reInserting bt = true)
    (hword : rxContains reWords bt = true)
    (hcaps : replaceWordsCaps bt = some (sw, iw))
    (hnot : countOcc body sw ≠ 1) :
    mark_text body bt num = body ++ lc "\n\n_" ++ trim bt ++ lc "_" := by
  unfold mark_text
  simp [hrep, hstrik, hins, hword, hcaps, hnot, footnote]

/-- C2 witness: the struck phrase occurs twice so the body is kept intact and
    the raw bill text is appended as a footnote. -/
theorem mark_text_replace_words_ambiguous_witness :
    mark_text (lc "ab and ab") (lc "strik word \"ab\" insert: cd.") (lc "1") =
      lc "ab and ab" ++ lc "\n\n_" ++ trim (lc "strik word \"ab\" insert: cd.") ++ lc "_" :=
  mark_text_replace_words_ambiguous (lc "ab and ab") (lc "strik word \"ab\" insert: cd.")
    (lc "1") (lc "ab") (lc "cd") (by decide) (by decide) (by decide) (by decide) (by decide)
    (by decide)

/-- C7 counterexample: a strike-only words bill section whose captured struck
    phrase occurs twice in the body.  The claimed single-occurrence rule
    would leave the body unchanged (no replacement attempted), but the code
    replaces every occurrence unconditionally: the output differs both from
    the body and from the footnote degradation. -/
theorem mark_text_strike_words_counterexample :
    strikeWordsCaps (lc "striking out the words \"ab.") = some (lc "ab") ∧
      countOcc (lc "xabyabz") (lc "ab") = 2 ∧
      mark_text (lc "xabyabz") (lc "striking out the words \"ab.") (lc "1") ≠ lc "xabyabz" ∧
      mark_text (lc "xabyabz") (lc "striking out the words \"ab.") (lc "1") ≠
        footnote (lc "xabyabz") (lc "striking out the words \"ab.") := by
  decide

/-- C7 (amended): in the strike-only words branch (striking idiom without the
    inserting or repealed idioms), `mark_text` performs no single-occurrence
    check: it replaces every leftmost non-overlapping occurrence of the
    captured struck phrase with the strike-annotated phrase carrying the
    bill section number superscript, regardless of how many occurrences the
    body contains. -/
theorem mark_text_strike_words_all (body bt num sw : List Char)
    (hrep : rxContains reRepealed bt = false)
    (hstrik : rxContains reStriking bt = true)
    (hins : rxContains reInserting bt = false)
    (hword : rxContains reWords bt = true)
    (hcaps : strikeWordsCaps bt = some sw) :
    mark_text body bt num =
      replaceAll body sw (lc "[.line-through .red]#" ++ sw ++ lc "#^" ++ num ++ lc "^ ") := by
  unfold mark_text
  simp [hrep, hstrik, hins, hword, hcaps]

/-- C7 witness: both occurrences of the struck phrase are replaced. -/
theorem mark_text_strike_words_all_witness :
    mark_text (lc "xabyabz") (lc "striking out the words \"ab.") (lc "1") =
      replaceAll (lc "xabyabz") (lc "ab")
        (lc "[.line-through .red]#" ++ lc "ab" ++ lc "#^" ++ lc "1" ++ lc "^ ") :=
  mark_text_strike_words_all (lc "xabyabz") (lc "striking out the words \"ab.") (lc "1")
    (lc "ab") (by decide) (by decide) (by decide) (by decide) (by decide)

theorem countStep_total (sc : SectionCounts) (bs : BillSection) :
    (countStep sc bs).total = sc.total := by
  unfold countStep
  split_ifs <;> rfl

theorem countStep_aro (sc : SectionCounts) (bs : BillSection) :
    (countStep sc bs).amending + (countStep sc bs).repealing + (countStep sc bs).other =
      sc.amending + sc.repealing + sc.other + 1 := by
  unfold countStep
  split_ifs <;> simp <;> ring

theorem countStep_diff (sc : SectionCounts) (bs : BillSection)
    (h : rxContains reAmended bs.text = true →
      rxContains reStrikingB bs.text = true ∨ rxContains reInsertingB bs.text = true) :
    (countStep sc bs).amending - ((countStep sc bs).amending_by_striking
        + (countStep sc bs).amending_by_inserting
        + (countStep sc bs).amending_by_striking_and_inserting) =
      sc.amending - (sc.amending_by_striking + sc.amending_by_inserting
        + sc.amending_by_striking_and_inserting) := by
  unfold countStep
  split_ifs with h1 h2 h3 h4 <;> simp_all <;> ring

theorem countFold_total (bill : List BillSection) :
    ∀ sc, (bill.foldl countStep sc).total = sc.total := by
  induction bill with
  | nil => intro sc; rfl
  | cons bs rest ih =>
    intro sc
    simp only [List.foldl_cons]
    rw [ih, countStep_total]

theorem countFold_aro (bill : List BillSection) :
    ∀ sc, (bill.foldl countStep sc).amending + (bill.foldl countStep sc).repealing
        + (bill.foldl countStep sc).other =
      sc.amending + sc.repealing + sc.other + bill.length := by
  induction bill with
  | nil => intro sc; simp
  | cons bs rest ih =>
    intro sc
    simp only [List.foldl_cons, List.length_cons]
    rw [ih, countStep_aro]
    push_cast
    ring

theorem countFold_diff (bill : List BillSection) :
    ∀ sc, (∀ bs ∈ bill, rxContains reAmended bs.text = true →
        rxContains reStrikingB bs.text = true ∨ rxContains reInsertingB bs.text = true) →
      (bill.foldl countStep sc).amending - ((bill.foldl countStep sc).amending_by_striking
          + (bill.foldl countStep sc).amending_by_inserting
          + (bill.foldl countStep sc).amending_by_striking_and_inserting) =
        sc.amending - (sc.amending_by_striking + sc.amending_by_inserting
          + sc.amending_by_striking_and_inserting) := by
  induction bill with
  | nil => intro sc _; rfl
  | cons bs rest ih =>
    intro sc hall
    simp only [List.foldl_cons]
    rw [ih _ (fun b hb => hall b (List.mem_cons_of_mem bs hb)),
      countStep_diff sc bs (hall bs (List.mem_cons_self bs rest))]

/-- C3 counterexample: a bill section whose text contains "amended" but
    neither "striking" nor "inserting" increments `amending` without
    incrementing any amendment sub-counter, so the first claimed equation
    fails. -/
theorem count_bill_section_types_counterexample :
    ¬((count_bill_section_types [⟨lc "1", lc "amended", ⟨[], []⟩⟩]).amending_by_striking
        + (count_bill_section_types [⟨lc "1", lc "amended", ⟨[], []⟩⟩]).amending_by_inserting
        + (count_bill_section_types
            [⟨lc "1", lc "amended", ⟨[], []⟩⟩]).amending_by_striking_and_inserting =
      (count_bill_section_types [⟨lc "1", lc "amended", ⟨[], []⟩⟩]).amending ∧
      (count_bill_section_types [⟨lc "1", lc "amended", ⟨[], []⟩⟩]).amending
          + (count_bill_section_types [⟨lc "1", lc "amended", ⟨[], []⟩⟩]).repealing
          + (count_bill_section_types [⟨lc "1", lc "amended", ⟨[], []⟩⟩]).other =
        (count_bill_section_types [⟨lc "1", lc "amended", ⟨[], []⟩⟩]).total) := by
  decide

/-- C3 (amended): for every list of bill sections,
    `amending + repealing + other = total` always holds, and the sub-type
    equation `amending_by_striking + amending_by_inserting +
    amending_by_striking_and_inserting = amending` holds whenever every
    section whose text matches "amended" also matches "striking" or
    "inserting" (i.e. whenever amendment sub-type detection succeeds). -/
theorem count_bill_section_types_invariants (bill : List BillSection) :
    (count_bill_section_types bill).amending + (count_bill_section_types bill).repealing
        + (count_bill_section_types bill).other = (count_bill_section_types bill).total ∧
      ((∀ bs ∈ bill, rxContains reAmended bs.text = true →
          rxContains reStrikingB bs.text = true ∨ rxContains reInsertingB bs.text = true) →
        (count_bill_section_types bill).amending_by_striking
            + (count_bill_section_types bill).amending_by_inserting
            + (count_bill_section_types bill).amending_by_striking_and_inserting =
          (count_bill_section_types bill).amending) := by
  constructor
  · rw [count_bill_section_types, countFold_total, countFold_aro]
    push_cast
    ring
  · intro hall
    have hd := countFold_diff bill
      { total := (bill.length : Int), amending := 0, amending_by_striking := 0,
        amending_by_inserting := 0, amending_by_striking_and_inserting := 0,
        repealing := 0, other := 0 } hall
    simp only [SectionCounts.mk.injEq] at hd
    simp at hd
    rw [count_bill_section_types]
    omega

/-- C3 witness: a three-section bill (strike-and-insert amendment, repeal,
    other) satisfies both equations. -/
theorem count_bill_section_types_invariants_witness :
    ((count_bill_section_types [⟨lc "1", lc "amended by striking and inserting", ⟨[], []⟩⟩,
        ⟨lc "2", lc "is hereby repealed", ⟨[], []⟩⟩,
        ⟨lc "3", lc "definitions", ⟨[], []⟩⟩]).amending
      + (count_bill_section_types [⟨lc "1", lc "amended by striking and inserting", ⟨[], []⟩⟩,
        ⟨lc "2", lc "is hereby repealed", ⟨[], []⟩⟩,
        ⟨lc "3", lc "definitions", ⟨[], []⟩⟩]).repealing
      + (count_bill_section_types [⟨lc "1", lc "amended by striking and inserting", ⟨[], []⟩⟩,
        ⟨lc "2", lc "is hereby repealed", ⟨[], []⟩⟩,
        ⟨lc "3", lc "definitions", ⟨[], []⟩⟩]).other
      = (count_bill_section_types [⟨lc "1", lc "amended by striking and inserting", ⟨[], []⟩⟩,
        ⟨lc "2", lc "is hereby repealed", ⟨[], []⟩⟩,
        ⟨lc "3", lc "definitions", ⟨[], []⟩⟩]).total)
    ∧ ((count_bill_section_types [⟨lc "1", lc "amended by striking and inserting", ⟨[], []⟩⟩,
        ⟨lc "2", lc "is hereby repealed", ⟨[], []⟩⟩,
        ⟨lc "3", lc "definitions", ⟨[], []⟩⟩]).amending_by_striking
      + (count_bill_section_types [⟨lc "1", lc "amended by striking and inserting", ⟨[], []⟩⟩,
        ⟨lc "2", lc "is hereby repealed", ⟨[], []⟩⟩,
        ⟨lc "3", lc "definitions", ⟨[], []⟩⟩]).amending_by_inserting
      + (count_bill_section_types [⟨lc "1", lc "amended by striking and inserting", ⟨[], []⟩⟩,
        ⟨lc "2", lc "is hereby repealed", ⟨[], []⟩⟩,
        ⟨lc "3", lc "definitions", ⟨[], []⟩⟩]).amending_by_striking_and_inserting
      = (count_bill_section_types [⟨lc "1", lc "amended by striking and inserting", ⟨[], []⟩⟩,
        ⟨lc "2", lc "is hereby repealed", ⟨[], []⟩⟩,
        ⟨lc "3", lc "definitions", ⟨[], []⟩⟩]).amending) :=
  ⟨(count_bill_section_types_invariants _).1,
    (count_bill_section_types_invariants _).2 (by decide)⟩

/-- C6 counterexample: for the plural-form scenario text
    "SECTION 1. Sections 10, 11 and 12 of chapter 90 of the General Laws are
    hereby repealed.", the extracted section list is not exactly
    ["10", "11", "12"]: the global `section_list` scan also collects the
    chapter token "90" (it is a digit-led token followed by whitespace). -/
theorem collect_law_sections_plural_counterexample :
    (collect_law_sections (lc "SECTION 1. Sections 10, 11 and 12 of chapter 90 of the General Laws are hereby repealed.")).section_numbers
      ≠ [lc "10", lc "11", lc "12"] := by
  decide

/-- C6 (amended): for the plural-form scenario text, `collect_law_sections`
    extracts chapter "90" and the section numbers "10", "11", "12" in that
    order with trailing commas and whitespace trimmed, followed by every
    other digit-led token of the text that is followed by a comma or
    whitespace — here the chapter number "90". -/
theorem collect_law_sections_plural :
    collect_law_sections (lc "SECTION 1. Sections 10, 11 and 12 of chapter 90 of the General Laws are hereby repealed.")
      = ⟨lc "90", [lc "10", lc "11", lc "12", lc "90"]⟩ := by
  decide

/-- C8 counterexample: with fragments ["SECTION 1", "."] no single fragment
    matches the bill-section-header pattern, yet segmentation returns one
    `BillSection` whose `section_number` is "1", not the empty string: the
    header pattern matches the newline-joined text, its inner `\s*`
    crossing the fragment boundary. -/
theorem collect_bill_sections_counterexample :
    rxContains reBillSection (lc "SECTION 1") = false ∧
      rxContains reBillSection (lc ".") = false ∧
      (collect_bill_sections [lc "SECTION 1", lc "."]).map
          (fun bs => bs.section_number) = [lc "1"] := by
  decide

theorem collect_bill_sections_aux_nomatch :
    ∀ (nodes : List (List Char)) (acc : List Char) (bill : List BillSection),
      (∀ f ∈ nodes, rxContains reBillSection f = false) →
      collect_bill_sections_aux nodes acc bill =
        bill ++ [collect_bill_section (accJoinAux nodes acc)] := by
  intro nodes
  induction nodes with
  | nil => intro acc bill _; rfl
  | cons node rest ih =>
    intro acc bill hall
    have hn : rxContains reBillSection node = false := hall node (List.mem_cons_self node rest)
    rw [collect_bill_sections_aux, accJoinAux]
    simp only [hn, Bool.false_and, if_neg (by simp : ¬(false = true))]
    exact ih _ bill (fun f hf => hall f (List.mem_cons_of_mem node hf))

/-- C8 (amended): for every non-empty sequence of fragments none of which
    matches the bill-section-header pattern, `collect_bill_sections` returns
    exactly one `BillSection` whose text is the fragments accumulated in
    order with newline separators; its `section_number` is whatever the
    header pattern captures on that joined text — the empty string unless
    the header match spans a fragment boundary through the joining
    newline. -/
theorem collect_bill_sections_no_header (nodes : List (List Char))
    (hne : nodes ≠ [])
    (hall : ∀ f ∈ nodes, rxContains reBillSection f = false) :
    collect_bill_sections nodes = [collect_bill_section (accJoin nodes)] := by
  rw [collect_bill_sections, accJoin, collect_bill_sections_aux_nomatch nodes [] [] hall,
    List.nil_append]

/-- C8 witness: two plain fragments yield one section with empty number. -/
theorem collect_bill_sections_no_header_witness :
    collect_bill_sections [lc "a", lc "b"] = [collect_bill_section (accJoin [lc "a", lc "b"])] :=
  collect_bill_sections_no_header [lc "a", lc "b"] (by decide) (by decide)

theorem required_pairs_nil (bill : List BillSection)
    (h : ∀ bs ∈ bill, bs.law_sections.section_numbers = []) :
    required_law_sections bill = [] := by
  have hfm : bill.flatMap (fun bs =>
      bs.law_sections.section_numbers.map
        (fun sec => (bs.law_sections.chapter_number, sec))) = [] := by
    induction bill with
    | nil => rfl
    | cons bs rest ih =>
      rw [List.flatMap_cons, h bs (List.mem_cons_self bs rest)]
      simpa using ih (fun b hb => h b (List.mem_cons_of_mem bs hb))
  rw [required_law_sections, hfm]
  rfl

/-- C9: when every bill section has an empty `section_numbers` list, the
    required-law-sections list is empty and `get_required_law_sections`
    reaches `required_law_sections.pop().unwrap()` on an empty vector: it
    panics (modelled as `none`) instead of returning an empty result.  The
    function's implicit precondition is that at least one bill section
    contributes a (chapter, section) pair. -/
theorem get_required_law_sections_panics (bill : List BillSection)
    (h : ∀ bs ∈ bill, bs.law_sections.section_numbers = []) :
    get_required_law_sections_pop bill = none := by
  rw [get_required_law_sections_pop, required_pairs_nil bill h]
  rfl

/-- C9 witness: a one-section bill with no extracted law sections makes the
    function panic. -/
theorem get_required_law_sections_panics_witness :
    get_required_law_sections_pop [⟨lc "1", lc "some text", ⟨lc "90", []⟩⟩] = none :=
  get_required_law_sections_panics [⟨lc "1", lc "some text", ⟨lc "90", []⟩⟩] (by decide)

theorem markFold_filter (bill : List BillSection) :
    ∀ (keys : List (List Char)) (acc : List Char),
      markFold bill keys acc =
        markFold bill
          (keys.filter (fun k => (bill.find? (fun bs => bs.section_number == k)).isSome))
          acc := by
  intro keys
  induction keys with
  | nil => intro acc; rfl
  | cons key rest ih =>
    intro acc
    simp only [markFold, List.foldl_cons, List.filter_cons] at ih ⊢
    cases hf : bill.find? (fun bs => bs.section_number == key) with
    | none =>
      simp only [hf, Option.isSome_none, Bool.false_eq_true, if_false]
      exact ih acc
    | some bs =>
      simp only [hf, Option.isSome_some, if_true, List.foldl_cons]
      exact ih (mark_text acc bs.text bs.section_number)

/-- C10: in `mark_section_text`, every bill-section key of the law section
    for which no bill section has a matching `section_number` is silently
    skipped: the marked-up output equals the one computed from only the
    matching keys, in their listed order. -/
theorem mark_section_text_skips_unmatched (ls : LawSectionWithText)
    (bill : List BillSection) :
    mark_section_text ls bill =
      mark_section_text
        ⟨ls.law_chapter_key, ls.text,
          ls.bill_section_keys.filter
            (fun k => (bill.find? (fun bs => bs.section_number == k)).isSome)⟩
        bill := by
  rw [mark_section_text, mark_section_text]
  cases htp : textParseCaps ls.text with
  | none => rfl
  | some pr =>
    obtain ⟨c1, c2⟩ := pr
    show some (lc "*" ++ trim c1 ++ lc "*\n\n"
        ++ markFold bill ls.bill_section_keys (trim c2)) =
      some (lc "*" ++ trim c1 ++ lc "*\n\n"
        ++ markFold bill
          (ls.bill_section_keys.filter
            (fun k => (bill.find? (fun bs => bs.section_number == k)).isSome))
          (trim c2))
    rw [markFold_filter bill ls.bill_section_keys (trim c2)]
